import Mathlib

/-!
# Verification of `energyflow/base.py`

A shallow embedding, in Lean 4, of the base classes of the EnergyFlow
library (`EFBase`, `EFPBase`, `EFMBase` from `src/energyflow/base.py`),
together with theorems settling the specification claims about them.

Numeric arrays are modelled as lists of rationals; events are such arrays;
Python `None`-able values are `Option`s; Python exceptions are `Except`.
Python floor division `//` is `Int.fdiv`; the substring test `'efm' in s`
is an executable infix-containment check on character lists.
-/

namespace EnergyFlow

/-- Values of numeric array entries (`numpy` floats, modelled exactly as ℚ). -/
abbrev Val : Type := ℚ

/-- A numeric array (e.g. `zs`, `thetas`, `phats`). -/
abbrev Arr : Type := List Val

/-- An event: an array of particle records, modelled as a numeric array.
Only its role as an opaque input to `Measure.evaluate` matters here;
crucially an event may be an *empty* sequence (falsy in Python but not `None`). -/
abbrev Event : Type := List Val

/-- Modelled from the spec: the external `Measure` collaborator
(`energyflow/measure.py` is not among the provided sources).  Per spec §6 it
exposes `evaluate(event) -> (zs, coordinates)` together with the read-only
attributes `measure` (kind), `beta`, `kappa`, `normed`, `coords`,
`check_input`, `subslicing`, and is constructed from a configuration mapping.
`beta` is an `Option` because `EFMBase.__init__` assigns `None` to it. -/
structure Measure where
  measure : String
  beta : Option Val
  kappa : Val
  normed : Bool
  coords : String
  check_input : Bool
  subslicing : Bool
  evaluate : Event → Arr × Arr

/-- The state of an `EFBase` object: it holds zero or one `Measure`
(`_measure` is the Python attribute; `none` models the attribute being absent,
as happens when construction is skipped via `no_measure=True`). -/
structure EFBase where
  _measure : Option Measure

/-- `EFBase.has_measure`: `hasattr(self, '_measure') and isinstance(self._measure, Measure)`. -/
def EFBase.has_measure (b : EFBase) : Bool :=
  b._measure.isSome

/-- `EFBase.measure` property: `self._measure.measure if self.has_measure() else None`. -/
def EFBase.measure (b : EFBase) : Option String :=
  match b._measure with
  | some m => some m.measure
  | none => none

/-- `EFBase.beta` property: `self._measure.beta if self.has_measure() else None`.
(Both a missing measure and a measure whose beta was cleared yield Python `None`,
hence the flattened `Option`.) -/
def EFBase.beta (b : EFBase) : Option Val :=
  match b._measure with
  | some m => m.beta
  | none => none

/-- `EFBase.kappa` property. -/
def EFBase.kappa (b : EFBase) : Option Val :=
  match b._measure with
  | some m => some m.kappa
  | none => none

/-- `EFBase.normed` property. -/
def EFBase.normed (b : EFBase) : Option Bool :=
  match b._measure with
  | some m => some m.normed
  | none => none

/-- `EFBase.coords` property. -/
def EFBase.coords (b : EFBase) : Option String :=
  match b._measure with
  | some m => some m.coords
  | none => none

/-- `EFBase.check_input` property. -/
def EFBase.check_input (b : EFBase) : Option Bool :=
  match b._measure with
  | some m => some m.check_input
  | none => none

/-- `EFBase.subslicing` property. -/
def EFBase.subslicing (b : EFBase) : Option Bool :=
  match b._measure with
  | some m => some m.subslicing
  | none => none

/-! ## `batch_compute` -/

/-- Resolution of the `n_jobs` argument at the top of `batch_compute`:
`-1` is replaced by `multiprocessing.cpu_count()` (modelled as `cpu`, with
`none` meaning detection raised), falling back to `4`; any other value is
kept as is. -/
def resolveNJobs (n_jobs : ℤ) (cpu : Option ℕ) : ℤ :=
  if n_jobs = -1 then
    match cpu with
    | some c => (c : ℤ)
    | none => 4
  else n_jobs

/-- The chunk size chosen on the parallel path:
`chunksize = min(max(len(events)//self.n_jobs, 1), 10000)`
(Python `//` is floor division, i.e. `Int.fdiv`). -/
def chunksizeInt (len : ℕ) (n_jobs : ℤ) : ℤ :=
  min (max (Int.fdiv (len : ℤ) n_jobs) 1) 10000

/-- The spec's `clamp(x, lo, hi)`, written from the spec's words for
comparison with the source's `chunksizeInt`. -/
def clampSpec (x lo hi : ℤ) : ℤ :=
  min (max x lo) hi

/-- Splitting a list into contiguous chunks of size `n` (fuel-driven so the
definition is total; `fuel ≥ length` and `n ≥ 1` make it exhaustive).  This
models how `pool.imap(func, events, chunksize)` dispatches contiguous blocks
of `chunksize` events to the workers, in order. -/
def chunksAux (n : ℕ) : ℕ → List α → List (List α)
  | 0, _ => []
  | _, [] => []
  | fuel + 1, x :: xs => (x :: xs).take n :: chunksAux n fuel ((x :: xs).drop n)

/-- The chunk decomposition of a list with chunk size `n`. -/
def chunks (n : ℕ) (xs : List α) : List (List α) :=
  chunksAux n xs.length xs

/-- Ordered chunked dispatch of `pool.imap(f, events, chunksize)` on the
success path: each worker maps `f` over its contiguous chunk, and the results
are collected back in input order. -/
def imapOrdered (f : Event → R) (csize : ℕ) (events : List Event) : List R :=
  ((chunks csize events).map (List.map f)).flatten

/-- The observable outcome of `batch_compute`: the resolved `n_jobs` stored
on `self`, and the result vector. -/
structure BatchResult (R : Type) where
  n_jobs : ℤ
  result : List R

/-- `EFBase.batch_compute(events, n_jobs=-1)`: resolves `n_jobs` (with `cpu`
the outcome of CPU detection), stores it, and either maps the per-event
compute function sequentially (`n_jobs == 1`) or dispatches over a pool via
ordered chunked `imap`. `f` is `self._batch_compute_func`. -/
def batch_compute (f : Event → R) (events : List Event) (n_jobs : ℤ) (cpu : Option ℕ) :
    BatchResult R :=
  let nj := resolveNJobs n_jobs cpu
  if nj = 1 then
    ⟨nj, events.map f⟩
  else
    ⟨nj, imapOrdered f (chunksizeInt events.length nj).toNat events⟩

/-! ## Basic chunking lemmas -/

theorem chunksAux_flatten (n : ℕ) (hn : 1 ≤ n) :
    ∀ (fuel : ℕ) (xs : List α), xs.length ≤ fuel → (chunksAux n fuel xs).flatten = xs := by
  intro fuel
  induction fuel with
  | zero =>
    intro xs hx
    have : xs = [] := List.length_eq_zero.mp (Nat.le_zero.mp hx)
    simp [this, chunksAux]
  | succ fuel ih =>
    intro xs hx
    match xs with
    | [] => simp [chunksAux]
    | x :: xs =>
      have hdrop : ((x :: xs).drop n).length ≤ fuel := by
        rw [List.length_drop]
        have h1 : (x :: xs).length ≤ fuel + 1 := hx
        omega
      simp only [chunksAux, List.flatten_cons, ih _ hdrop]
      exact List.take_append_drop n (x :: xs)

theorem chunks_flatten (n : ℕ) (hn : 1 ≤ n) (xs : List α) :
    (chunks n xs).flatten = xs :=
  chunksAux_flatten n hn xs.length xs le_rfl

theorem imapOrdered_eq_map (f : Event → R) (csize : ℕ) (hc : 1 ≤ csize)
    (events : List Event) : imapOrdered f csize events = events.map f := by
  unfold imapOrdered
  rw [← List.map_flatten, chunks_flatten csize hc]

theorem chunksizeInt_pos (len : ℕ) (nj : ℤ) : 1 ≤ chunksizeInt len nj := by
  unfold chunksizeInt
  exact le_min (le_max_right _ _) (by norm_num)

theorem chunksizeInt_toNat_pos (len : ℕ) (nj : ℤ) : 1 ≤ (chunksizeInt len nj).toNat := by
  have h := chunksizeInt_pos len nj
  omega

/-- The result vector of `batch_compute` is always the sequential map,
whatever the resolved job count and chunking. -/
theorem batch_compute_result (f : Event → R) (events : List Event) (n_jobs : ℤ)
    (cpu : Option ℕ) : (batch_compute f events n_jobs cpu).result = events.map f := by
  unfold batch_compute
  by_cases h : resolveNJobs n_jobs cpu = 1 <;>
    simp [h, imapOrdered_eq_map f _ (chunksizeInt_toNat_pos events.length _) events]

/-! ## Claims C1, C5, C6 -/

/-- C1: for every sequence of events and every `n_jobs` in `{1, 2, -1}`,
`batch_compute(events, n_jobs)` returns a vector whose i-th element equals the
sequential single-event compute of `events[i]` for every valid index i, and
whose length matches; output order matches input order regardless of worker
count or chunking. -/
theorem c1_batch_compute_order (f : Event → R) (events : List Event) (n_jobs : ℤ)
    (cpu : Option ℕ) (h : n_jobs = 1 ∨ n_jobs = 2 ∨ n_jobs = -1) :
    (batch_compute f events n_jobs cpu).result.length = events.length ∧
    ∀ i (hi : i < events.length),
      (batch_compute f events n_jobs cpu).result.get
        ⟨i, by rw [batch_compute_result, List.length_map]; exact hi⟩ =
      f (events.get ⟨i, hi⟩) := by
  constructor
  · rw [batch_compute_result, List.length_map]
  · intro i hi
    simp [batch_compute_result]

/-- Witness for C1 at a concrete input. -/
theorem c1_batch_compute_order_witness :
    (batch_compute (fun e => e.headD 0 + 1) [[(3 : ℚ)], [5], [7]] 2 (some 4)).result.length = 3 ∧
    (batch_compute (fun e => e.headD 0 + 1) [[(3 : ℚ)], [5], [7]] 2 (some 4)).result.get
      ⟨1, by rw [batch_compute_result, List.length_map]; decide⟩ = 6 := by
  have h := c1_batch_compute_order (fun e => e.headD 0 + 1) [[(3 : ℚ)], [5], [7]] 2 (some 4)
    (Or.inr (Or.inl rfl))
  refine ⟨h.1, ?_⟩
  have h2 := h.2 1 (by decide)
  rw [h2]
  norm_num

/-- C5: for every non-empty events sequence and every resolved `n_jobs` taking
the parallel path (`n_jobs ≠ 1`; `n_jobs ≠ 0` since Python floor division by
zero would raise before any dispatch), the chunk size lies in `[1, 10000]` and
equals `clamp(len(events)//n_jobs, 1, 10000)`. -/
theorem c5_chunksize (len : ℕ) (n_jobs : ℤ) (hlen : 1 ≤ len) (h1 : n_jobs ≠ 1)
    (h0 : n_jobs ≠ 0) :
    1 ≤ chunksizeInt len n_jobs ∧ chunksizeInt len n_jobs ≤ 10000 ∧
    chunksizeInt len n_jobs = clampSpec (Int.fdiv (len : ℤ) n_jobs) 1 10000 := by
  refine ⟨chunksizeInt_pos len n_jobs, min_le_right _ _, rfl⟩

/-- Witness for C5 at a concrete input. -/
theorem c5_chunksize_witness :
    1 ≤ chunksizeInt 7 2 ∧ chunksizeInt 7 2 ≤ 10000 ∧
    chunksizeInt 7 2 = clampSpec (Int.fdiv 7 2) 1 10000 :=
  c5_chunksize 7 2 (by decide) (by decide) (by decide)

/-- C6: `n_jobs == -1` resolves to the detected CPU count, falling back to 4
when detection fails; any other requested value is kept as-is; and the
resolved value is stored as observable state (`self.n_jobs`) on the evaluator. -/
theorem c6_njobs_resolution (f : Event → R) (events : List Event) (n : ℤ)
    (cpu : Option ℕ) (c : ℕ) :
    resolveNJobs (-1) (some c) = (c : ℤ) ∧
    resolveNJobs (-1) none = 4 ∧
    (n ≠ -1 → resolveNJobs n cpu = n) ∧
    (batch_compute f events n cpu).n_jobs = resolveNJobs n cpu := by
  refine ⟨rfl, rfl, fun h => by simp [resolveNJobs, h], ?_⟩
  unfold batch_compute
  by_cases h : resolveNJobs n cpu = 1 <;> simp [h]

/-- Witness for C6 at a concrete input. -/
theorem c6_njobs_resolution_witness :
    resolveNJobs (-1) (some 8) = 8 ∧ resolveNJobs (-1) none = 4 ∧
    (batch_compute (fun e => e.headD 0 + 1) [[(3 : ℚ)]] 2 none).n_jobs = resolveNJobs 2 none := by
  have h := c6_njobs_resolution (fun e => e.headD 0 + 1) [[(3 : ℚ)]] 2 none 8
  exact ⟨h.1, h.2.1, h.2.2.2⟩

/-! ## Construction: kwargs, `EFPBase.__init__`, `EFMBase.__init__` -/

/-- Python's substring test `needle in hay` on character lists
(used for `'efm' in kwargs.setdefault('measure', ...)`). -/
def pyIn (needle : List Char) : List Char → Bool
  | [] => needle.isEmpty
  | c :: t => needle.isPrefixOf (c :: t) || pyIn needle t

/-- The keyword-argument mapping passed to the constructors, restricted to the
keys the base classes themselves read: `measure` (the measure-kind string) and
`no_measure`.  A `none` field models the key being absent from the dict; the
remaining measure-configuration keys are forwarded untouched to the external
`Measure` constructor and are abstracted into the constructor argument `mk`. -/
structure Kwargs where
  measure : Option String
  no_measure : Option Bool

/-- Python `kwargs.setdefault('measure', d)`: returns the value under
`'measure'`, inserting `d` into the mapping first when the key is absent. -/
def setdefaultMeasure (kw : Kwargs) (d : String) : String × Kwargs :=
  match kw.measure with
  | some v => (v, kw)
  | none => (d, { kw with measure := some d })

/-- `EFMBase.__init__(kwargs)`:
`assert 'efm' in kwargs.setdefault('measure', 'hadrefm')`, then, unless
`kwargs.pop('no_measure', False)` is truthy, builds the `Measure` from the
popped kind and the remaining kwargs (`mk` models the external constructor)
and finally sets `self._measure.beta = None`.  Returns the constructed state
(or the assertion error) together with the caller's kwargs mapping as the
constructor leaves it. -/
def EFMBase.init (kw : Kwargs) (mk : String → Kwargs → Measure) :
    Except String EFBase × Kwargs :=
  let kd := setdefaultMeasure kw "hadrefm"
  if pyIn "efm".data kd.1.data then
    let nm := (kd.2).no_measure.getD false
    let kw2 : Kwargs := { kd.2 with no_measure := none }
    if nm then (Except.ok ⟨none⟩, kw2)
    else
      let kw3 : Kwargs := { kw2 with measure := none }
      (Except.ok ⟨some { mk kd.1 kw3 with beta := none }⟩, kw3)
  else
    (Except.error "Must use an efm measure.", kd.2)

/-- The state of an `EFPBase` object: the underlying measure holder plus the
`use_efms` attribute (`none` when construction was skipped via `no_measure`
and the attribute was never set). -/
structure EFPState where
  base : EFBase
  use_efms : Option Bool

/-- `EFPBase.__init__(kwargs)`: unless `kwargs.pop('no_measure', False)` is
truthy, applies the default kind `'hadr'` via `setdefault`, builds the
`Measure` from the popped kind and remaining kwargs, and sets
`self.use_efms = 'efm' in self.measure`. -/
def EFPBase.init (kw : Kwargs) (mk : String → Kwargs → Measure) :
    EFPState × Kwargs :=
  let nm := kw.no_measure.getD false
  let kw1 : Kwargs := { kw with no_measure := none }
  if nm then (⟨⟨none⟩, none⟩, kw1)
  else
    let kd := setdefaultMeasure kw1 "hadr"
    let kw3 : Kwargs := { kd.2 with measure := none }
    let m := mk kd.1 kw3
    (⟨⟨some m⟩, some (pyIn "efm".data m.measure.data)⟩, kw3)

/-! ## Single-event computation helpers -/

/-- `EFPBase.get_zs_thetas_dict(event, zs, thetas)`: when `event is not None`,
`(zs, thetas)` are derived via `self._measure.evaluate(event)`; otherwise both
`zs` and `thetas` must be given, else a `TypeError` is raised.  Returns `zs`
unchanged together with the dict mapping each `w` in `weight_set` to
`thetas ** w` elementwise. -/
def get_zs_thetas_dict (m : Measure) (weight_set : List ℕ) (event : Option Event)
    (zs thetas : Option Arr) : Except String (Arr × List (ℕ × Arr)) :=
  match event with
  | some ev =>
    let p := m.evaluate ev
    Except.ok (p.1, weight_set.map fun w => (w, p.2.map (· ^ w)))
  | none =>
    match zs, thetas with
    | some z, some t => Except.ok (z, weight_set.map fun w => (w, t.map (· ^ w)))
    | _, _ => Except.error "If event is None then zs and thetas cannot also be None"

/-- `EFPBase.compute_efms(event, zs, phats)`: same event-or-explicit-data
contract, then delegates to `self.efmset.compute(zs=zs, phats=phats)`
(the external `efmset` is the parameter). -/
def compute_efms (m : Measure) (efmset : Arr → Arr → Arr) (event : Option Event)
    (zs phats : Option Arr) : Except String Arr :=
  match event with
  | some ev =>
    let p := m.evaluate ev
    Except.ok (efmset p.1 p.2)
  | none =>
    match zs, phats with
    | some z, some p => Except.ok (efmset z p)
    | _, _ => Except.error "If event is None then zs and thetas cannot also be None"

/-- `EFMBase.compute(event=None, zs=None, phats=None)` (the abstract base
body): when `event is not None`, returns `self._measure.evaluate(event)`;
otherwise both `zs` and `phats` must be given, else a `ValueError` is raised;
then `(zs, phats)` is returned. -/
def EFMBase.compute (m : Measure) (event : Option Event) (zs phats : Option Arr) :
    Except String (Arr × Arr) :=
  match event with
  | some ev => Except.ok (m.evaluate ev)
  | none =>
    match zs, phats with
    | some z, some p => Except.ok (z, p)
    | _, _ => Except.error "If event is None then zs and phats cannot be None."

/-! ## Concrete fixtures used by witnesses and counterexamples -/

/-- A concrete measure whose `evaluate` always yields `([1], [2])` and whose
configured `beta` is `5`. -/
def mEx : Measure :=
  ⟨"hadrefm", some 5, 1, true, "ptyphim", true, false, fun _ => ([1], [2])⟩

/-- A concrete external-`Measure`-constructor fixture. -/
def mkEx : String → Kwargs → Measure := fun _ _ => mEx

/-! ## Claims C2, C3, C4, C8, C9, C10 -/

/-- C2: with `event = None`, `get_zs_thetas_dict` raises the argument error
iff `zs` or `thetas` is `None`; when both are provided it returns `zs`
unchanged together with the map sending each `w` in the weight set to
`thetas ** w`; and `EFMBase.compute` obeys the same event-or-explicit-data
contract with `(zs, phats)`. -/
theorem c2_event_or_explicit (m : Measure) (ws : List ℕ) (zs thetas phats : Option Arr) :
    ((get_zs_thetas_dict m ws none zs thetas).isOk = false ↔ (zs = none ∨ thetas = none)) ∧
    (∀ z t, zs = some z → thetas = some t →
      get_zs_thetas_dict m ws none zs thetas =
        Except.ok (z, ws.map fun w => (w, t.map (· ^ w)))) ∧
    ((EFMBase.compute m none zs phats).isOk = false ↔ (zs = none ∨ phats = none)) ∧
    (∀ z p, zs = some z → phats = some p →
      EFMBase.compute m none zs phats = Except.ok (z, p)) := by
  cases zs <;> cases thetas <;> cases phats <;>
    simp [get_zs_thetas_dict, EFMBase.compute, Except.isOk, Except.toBool]

/-- Witness for C2 at concrete inputs. -/
theorem c2_event_or_explicit_witness :
    get_zs_thetas_dict mEx [2] none (some [3]) (some [2]) =
      Except.ok ([3], [(2, [4])]) ∧
    (get_zs_thetas_dict mEx [2] none none (some [2])).isOk = false ∧
    EFMBase.compute mEx none (some [3]) (some [2]) = Except.ok ([3], [2]) ∧
    (EFMBase.compute mEx none (some [3]) none).isOk = false := by
  refine ⟨?_, ?_, ?_, ?_⟩
  · have h := (c2_event_or_explicit mEx [2] (some [3]) (some [2]) none).2.1 [3] [2] rfl rfl
    rw [h]
    norm_num
  · exact (c2_event_or_explicit mEx [2] none (some [2]) none).1.mpr (Or.inl rfl)
  · exact (c2_event_or_explicit mEx [2] (some [3]) none (some [2])).2.2.2 [3] [2] rfl rfl
  · exact (c2_event_or_explicit mEx [2] (some [3]) none none).2.2.1.mpr (Or.inr rfl)

/-- C3: every successfully constructed moment evaluable reports `beta = None`
afterwards, whatever beta the configuration supplied and whatever measure the
external constructor produced — both when a measure is attached (beta is
cleared at construction) and when none is (`no_measure`). -/
theorem c3_efm_beta_none (kw : Kwargs) (mk : String → Kwargs → Measure) (st : EFBase)
    (h : (EFMBase.init kw mk).1 = Except.ok st) : EFBase.beta st = none := by
  by_cases h1 : pyIn "efm".data (setdefaultMeasure kw "hadrefm").1.data = true
  · by_cases h2 : ((setdefaultMeasure kw "hadrefm").2).no_measure.getD false = true
    · simp [EFMBase.init, h1, h2] at h
      simp [← h, EFBase.beta]
    · simp [EFMBase.init, h1, h2] at h
      simp [← h, EFBase.beta]
  · simp [EFMBase.init, h1] at h

/-- Witness for C3 at a concrete input (a configured beta of 5 is cleared). -/
theorem c3_efm_beta_none_witness :
    EFBase.beta
      ⟨some { mEx with beta := none }⟩ = none :=
  c3_efm_beta_none ⟨some "hadrefm", none⟩ mkEx ⟨some { mEx with beta := none }⟩ rfl

/-- The success of `EFMBase.__init__` is exactly the `'efm' in kind` test on
the (defaulted) measure kind: the shared computation behind C4 and C10. -/
theorem EFMBase.init_isOk (mk : String → Kwargs → Measure) (kw : Kwargs) :
    (EFMBase.init kw mk).1.isOk = pyIn "efm".data (kw.measure.getD "hadrefm").data := by
  have hkind : (setdefaultMeasure kw "hadrefm").1 = kw.measure.getD "hadrefm" := by
    cases hm : kw.measure <;> simp [setdefaultMeasure, hm]
  by_cases h1 : pyIn "efm".data (setdefaultMeasure kw "hadrefm").1.data = true
  · rw [hkind] at h1
    rw [h1]
    by_cases h2 : ((setdefaultMeasure kw "hadrefm").2).no_measure.getD false = true <;>
      simp [EFMBase.init, hkind, h1, h2, Except.isOk, Except.toBool]
  · rw [hkind] at h1
    simp [EFMBase.init, hkind, h1, Except.isOk, Except.toBool]

/-- C4: constructing a moment evaluable fails with the assertion error exactly
when the measure kind (defaulted to `'hadrefm'` when absent) does not contain
the `'efm'` marker, before any `Measure` is built; with no kind given,
construction passes the check. -/
theorem c4_efm_measure_check (mk : String → Kwargs → Measure) (kw : Kwargs) :
    ((EFMBase.init kw mk).1.isOk =
      pyIn "efm".data (kw.measure.getD "hadrefm").data) ∧
    (kw.measure = none → (EFMBase.init kw mk).1.isOk = true) := by
  refine ⟨EFMBase.init_isOk mk kw, fun hm => ?_⟩
  rw [EFMBase.init_isOk mk kw, hm]
  rfl

/-- Witness for C4 at concrete inputs: a non-efm kind is rejected, the
default kind is accepted. -/
theorem c4_efm_measure_check_witness :
    (EFMBase.init ⟨some "hadr", none⟩ mkEx).1.isOk = false ∧
    (EFMBase.init ⟨none, none⟩ mkEx).1.isOk = true := by
  constructor
  · rw [(c4_efm_measure_check mkEx ⟨some "hadr", none⟩).1]
    rfl
  · exact (c4_efm_measure_check mkEx ⟨none, none⟩).2 rfl

/-- C8: an evaluable constructed with `no_measure=True` has no measure, and
every measure-derived accessor (`measure`, `beta`, `kappa`, `normed`,
`coords`, `check_input`, `subslicing`) returns `None`. -/
theorem c8_no_measure_accessors (kw : Kwargs) (mk : String → Kwargs → Measure)
    (h : kw.no_measure = some true) :
    ((EFPBase.init kw mk).1.base).has_measure = false ∧
    ((EFPBase.init kw mk).1.base).measure = none ∧
    ((EFPBase.init kw mk).1.base).beta = none ∧
    ((EFPBase.init kw mk).1.base).kappa = none ∧
    ((EFPBase.init kw mk).1.base).normed = none ∧
    ((EFPBase.init kw mk).1.base).coords = none ∧
    ((EFPBase.init kw mk).1.base).check_input = none ∧
    ((EFPBase.init kw mk).1.base).subslicing = none := by
  simp [EFPBase.init, h, EFBase.has_measure, EFBase.measure, EFBase.beta, EFBase.kappa,
    EFBase.normed, EFBase.coords, EFBase.check_input, EFBase.subslicing]

/-- Witness for C8 at a concrete input. -/
theorem c8_no_measure_accessors_witness :
    ((EFPBase.init ⟨some "hadr", some true⟩ mkEx).1.base).has_measure = false ∧
    ((EFPBase.init ⟨some "hadr", some true⟩ mkEx).1.base).beta = none :=
  ⟨(c8_no_measure_accessors ⟨some "hadr", some true⟩ mkEx rfl).1,
   (c8_no_measure_accessors ⟨some "hadr", some true⟩ mkEx rfl).2.2.1⟩

/-- C9, counterexample: with the falsy-but-not-`None` event `[]`, explicitly
passed `zs = [5]`, `thetas = phats = [7]`, and a measure evaluating every
event to `([1], [2])`, both helpers derive their data by evaluating the
event — they do not reuse the stale explicit values as the claim asserts. -/
theorem c9_truthiness_counterexample :
    get_zs_thetas_dict mEx [1] (some []) (some [5]) (some [7]) =
      Except.ok ([1], [(1, [2])]) ∧
    get_zs_thetas_dict mEx [1] (some []) (some [5]) (some [7]) ≠
      Except.ok ([5], [(1, [7])]) ∧
    compute_efms mEx (fun z p => z ++ p) (some []) (some [5]) (some [7]) =
      Except.ok [1, 2] ∧
    compute_efms mEx (fun z p => z ++ p) (some []) (some [5]) (some [7]) ≠
      Except.ok [5, 7] := by
  refine ⟨rfl, ?_, rfl, ?_⟩
  · intro h
    rw [show get_zs_thetas_dict mEx [1] (some []) (some [5]) (some [7]) =
      Except.ok (([1] : Arr), [((1 : ℕ), ([2] : Arr))]) from rfl] at h
    injection h with h1
    exact absurd h1 (by decide)
  · intro h
    rw [show compute_efms mEx (fun z p => z ++ p) (some []) (some [5]) (some [7]) =
      Except.ok ([1, 2] : Arr) from rfl] at h
    injection h with h1
    exact absurd h1 (by decide)

/-- C9 as amended: "event provided" is decided by `is not None`, not by
truthiness — for every not-`None` event (including falsy ones such as the
empty sequence), `get_zs_thetas_dict` and `compute_efms` derive their data by
evaluating the event, discarding the explicitly passed `zs`/`thetas`/`phats`. -/
theorem c9_amended_not_none (m : Measure) (ws : List ℕ) (efmset : Arr → Arr → Arr)
    (ev : Event) (zs thetas phats : Option Arr) :
    get_zs_thetas_dict m ws (some ev) zs thetas =
      Except.ok ((m.evaluate ev).1, ws.map fun w => (w, (m.evaluate ev).2.map (· ^ w))) ∧
    compute_efms m efmset (some ev) zs phats =
      Except.ok (efmset (m.evaluate ev).1 (m.evaluate ev).2) := by
  exact ⟨rfl, rfl⟩

/-- C10: the moment evaluable's measure-kind assertion runs before
`no_measure` is consulted — construction with `no_measure=True` and a non-efm
kind still fails, for every external constructor (none is ever invoked) — and
the `setdefault` in the check inserts the default kind `'hadrefm'` into the
caller's kwargs mapping when the key is absent. -/
theorem c10_check_before_no_measure (mk : String → Kwargs → Measure) (kw : Kwargs)
    (h1 : kw.no_measure = some true)
    (h2 : pyIn "efm".data (kw.measure.getD "hadrefm").data = false) :
    (EFMBase.init kw mk).1.isOk = false ∧
    (∀ kw2 : Kwargs, kw2.measure = none →
      ((setdefaultMeasure kw2 "hadrefm").2).measure = some "hadrefm") := by
  constructor
  · rw [EFMBase.init_isOk mk kw, h2]
  · intro kw2 hm
    simp [setdefaultMeasure, hm]

/-- Witness for C10 at a concrete input. -/
theorem c10_check_before_no_measure_witness :
    (EFMBase.init ⟨some "hadr", some true⟩ mkEx).1.isOk = false ∧
    ((setdefaultMeasure ⟨none, none⟩ "hadrefm").2).measure = some "hadrefm" := by
  have h := c10_check_before_no_measure mkEx ⟨some "hadr", some true⟩ rfl rfl
  exact ⟨h.1, h.2 ⟨none, none⟩ rfl⟩

/-! ## The parallel path with fallible workers (claim C7)

To reason about pool lifetime and worker exceptions, the parallel branch of
`batch_compute` is re-embedded with a fallible per-event function
(`Event → Except ε R`) and an explicit trace of pool lifecycle events.  The
source's parallel path has two sub-branches on `sys.version_info[0] == 3`:
a `with multiprocessing.Pool(...)` block under Python 3, and under Python 2
a bare `Pool(...)` whose `pool.close()` only runs after `list(pool.imap(...))`
returns normally — a worker exception skips it. -/

/-- A pool lifecycle event: `acquire n` is `multiprocessing.Pool(n)`,
`release` is the pool being released (`Pool.__exit__` terminate/join under
Python 3, `pool.close()` under Python 2). -/
inductive PoolEvent where
  | acquire : ℤ → PoolEvent
  | release : PoolEvent
deriving DecidableEq

/-- The Python-3 sub-branch:
`with multiprocessing.Pool(nj) as pool: results = ...` — CPython `with`
semantics: `__enter__` runs before the body and `__exit__` runs after it on
*every* exit path — normal or exceptional — and returns `None`, so it never
suppresses the body's exception, which propagates unchanged after teardown. -/
def withPool (nj : ℤ) (body : Except ε A) : Except ε A × List PoolEvent :=
  (body, [PoolEvent.acquire nj, PoolEvent.release])

/-- The Python-2 sub-branch ("Pool is not a context manager in python 2"):
`pool = multiprocessing.Pool(nj); results = ...; pool.close()` — straight-line
statements with no `try`/`finally`, so `pool.close()` runs only when the body
returned normally; a body exception propagates with the pool never released. -/
def poolNoCtx (nj : ℤ) (body : Except ε A) : Except ε A × List PoolEvent :=
  (body,
    if body.isOk then [PoolEvent.acquire nj, PoolEvent.release]
    else [PoolEvent.acquire nj])

/-- `list(pool.imap(f, xs, ...))` consumption of one chunk/stream: results are
retrieved in input order and the first worker exception encountered re-raises
at its retrieval point, so earlier results are discarded and no partial list
is produced. -/
def mapE (f : α → Except ε β) : List α → Except ε (List β)
  | [] => Except.ok []
  | x :: xs =>
    match f x with
    | Except.error e => Except.error e
    | Except.ok y =>
      match mapE f xs with
      | Except.error e => Except.error e
      | Except.ok ys => Except.ok (y :: ys)

/-- Ordered chunked `pool.imap` with fallible workers: each chunk is mapped by
a worker, results are flattened back in input order, and the first worker
exception propagates. -/
def imapChunkedE (f : Event → Except ε R) (csize : ℕ) (events : List Event) :
    Except ε (List R) :=
  match mapE (mapE f) (chunks csize events) with
  | Except.error e => Except.error e
  | Except.ok rss => Except.ok rss.flatten

/-- The parallel branch of `batch_compute` with fallible workers, both
interpreter sub-branches (`pyMajor` models `sys.version_info[0]`):
under Python 3 a `with multiprocessing.Pool(nj) as pool:` block, otherwise a
bare pool with a trailing `pool.close()`; in both, the body is
`np.asarray(list(pool.imap(f, events, chunksize)))`. -/
def batch_compute_pool (pyMajor : ℕ) (f : Event → Except ε R) (events : List Event)
    (nj : ℤ) : Except ε (List R) × List PoolEvent :=
  if pyMajor = 3 then
    withPool nj (imapChunkedE f (chunksizeInt events.length nj).toNat events)
  else
    poolNoCtx nj (imapChunkedE f (chunksizeInt events.length nj).toNat events)

theorem mapE_ok_length (f : α → Except ε β) :
    ∀ (xs : List α) (ys : List β), mapE f xs = Except.ok ys → ys.length = xs.length := by
  intro xs
  induction xs with
  | nil =>
    intro ys h
    simp [mapE] at h
    simp [← h]
  | cons x xs ih =>
    intro ys h
    simp only [mapE] at h
    cases hx : f x with
    | error e => rw [hx] at h; simp at h
    | ok y =>
      rw [hx] at h
      cases hxs : mapE f xs with
      | error e => rw [hxs] at h; simp at h
      | ok ys2 =>
        rw [hxs] at h
        simp at h
        simp [← h, ih ys2 hxs]

theorem mapE_error_mem (f : α → Except ε β) :
    ∀ (xs : List α) (e : ε), mapE f xs = Except.error e → ∃ x ∈ xs, f x = Except.error e := by
  intro xs
  induction xs with
  | nil =>
    intro e h
    simp [mapE] at h
  | cons x xs ih =>
    intro e h
    simp only [mapE] at h
    cases hx : f x with
    | error e2 =>
      rw [hx] at h
      simp at h
      exact ⟨x, List.mem_cons_self x xs, by rw [hx, h]⟩
    | ok y =>
      rw [hx] at h
      cases hxs : mapE f xs with
      | error e2 =>
        rw [hxs] at h
        simp at h
        obtain ⟨x2, hmem, hx2⟩ := ih e2 hxs
        exact ⟨x2, List.mem_cons_of_mem x hmem, by rw [hx2, h]⟩
      | ok ys => rw [hxs] at h; simp at h

theorem mapE_mapE_ok_flatten_length (f : α → Except ε β) :
    ∀ (chs : List (List α)) (rss : List (List β)),
      mapE (mapE f) chs = Except.ok rss → rss.flatten.length = chs.flatten.length := by
  intro chs
  induction chs with
  | nil =>
    intro rss h
    simp [mapE] at h
    simp [h]
  | cons c cs ih =>
    intro rss h
    simp only [mapE] at h
    cases hc : mapE f c with
    | error e => rw [hc] at h; simp at h
    | ok ys =>
      rw [hc] at h
      cases hcs : mapE (mapE f) cs with
      | error e => rw [hcs] at h; simp at h
      | ok rss2 =>
        rw [hcs] at h
        simp at h
        simp [← h, List.flatten_cons, mapE_ok_length f c ys hc, ih rss2 hcs]

theorem chunksAux_mem_subset (n : ℕ) :
    ∀ (fuel : ℕ) (xs : List α) (c : List α), c ∈ chunksAux n fuel xs → c ⊆ xs := by
  intro fuel
  induction fuel with
  | zero =>
    intro xs c h
    simp [chunksAux] at h
  | succ fuel ih =>
    intro xs c h
    match xs with
    | [] => simp [chunksAux] at h
    | x :: xs =>
      simp only [chunksAux, List.mem_cons] at h
      cases h with
      | inl h => rw [h]; exact List.take_subset n (x :: xs)
      | inr h => exact fun a ha => List.drop_subset n (x :: xs) (ih _ c h ha)

theorem chunks_mem_subset (n : ℕ) (xs : List α) (c : List α) (h : c ∈ chunks n xs) :
    c ⊆ xs :=
  chunksAux_mem_subset n xs.length xs c h

/-- Any worker exception surfacing from the chunked `imap` is the failure of
`f` on one of the input events. -/
theorem imapChunkedE_error_mem (f : Event → Except ε R) (csize : ℕ) (events : List Event)
    (e : ε) (h : imapChunkedE f csize events = Except.error e) :
    ∃ ev ∈ events, f ev = Except.error e := by
  unfold imapChunkedE at h
  cases hm : mapE (mapE f) (chunks csize events) with
  | ok rss => rw [hm] at h; simp at h
  | error e2 =>
    rw [hm] at h
    simp at h
    obtain ⟨c, hcmem, hce⟩ := mapE_error_mem (mapE f) _ e2 hm
    obtain ⟨ev, hevmem, hfe⟩ := mapE_error_mem f c e2 hce
    subst h
    exact ⟨ev, chunks_mem_subset _ events c hcmem hevmem, hfe⟩

/-- A normal completion of the chunked `imap` yields one result per event. -/
theorem imapChunkedE_ok_length (f : Event → Except ε R) (csize : ℕ) (hc : 1 ≤ csize)
    (events : List Event) (rs : List R) (h : imapChunkedE f csize events = Except.ok rs) :
    rs.length = events.length := by
  unfold imapChunkedE at h
  cases hm : mapE (mapE f) (chunks csize events) with
  | error e2 => rw [hm] at h; simp at h
  | ok rss =>
    rw [hm] at h
    simp at h
    have hlen := mapE_mapE_ok_flatten_length f _ rss hm
    rw [chunks_flatten _ hc events] at hlen
    rw [← h, hlen]

/-- On either interpreter sub-branch, the returned value of the parallel path
is the outcome of the chunked `imap` body. -/
theorem batch_compute_pool_fst (pyMajor : ℕ) (f : Event → Except ε R)
    (events : List Event) (nj : ℤ) :
    (batch_compute_pool pyMajor f events nj).1 =
      imapChunkedE f (chunksizeInt events.length nj).toNat events := by
  by_cases hv : pyMajor = 3 <;> simp [batch_compute_pool, withPool, poolNoCtx, hv]

/-- A concrete fallible per-event compute: fails on the empty event. -/
def fEx : Event → Except String Val :=
  fun e => if e = [] then Except.error "empty event" else Except.ok (e.headD 0)

/-- C7, counterexample: on the Python-2 sub-branch of the cited parallel path,
a failing worker (here on the empty event) makes the exception propagate while
the trace shows the pool acquired but never released — `pool.close()` at
base.py:99 is skipped — refuting "always released before returning ... on any
worker exception". -/
theorem c7_py2_counterexample :
    (batch_compute_pool 2 fEx [[(1 : ℚ)], [], [2]] 2).1 = Except.error "empty event" ∧
    (batch_compute_pool 2 fEx [[(1 : ℚ)], [], [2]] 2).2 = [PoolEvent.acquire 2] ∧
    PoolEvent.release ∉ (batch_compute_pool 2 fEx [[(1 : ℚ)], [], [2]] 2).2 := by
  refine ⟨rfl, rfl, ?_⟩
  rw [show (batch_compute_pool 2 fEx [[(1 : ℚ)], [], [2]] 2).2 = [PoolEvent.acquire 2]
    from rfl]
  simp

/-- C7 as amended: on the parallel path a worker's exception always propagates
to the caller as the failure of one of the input events, with no partial
results, and a normal completion returns one result per event, on both
interpreter sub-branches.  The pool-release guarantee is per branch: under
Python 3 (the `with` block) the pool is released before returning on both
normal completion and any worker exception; under Python 2 the pool is
released (`pool.close()`) only on normal completion — on a worker exception it
is not released before the exception reaches the caller. -/
theorem c7_amended_pool_lifecycle (f : Event → Except ε R) (events : List Event)
    (nj : ℤ) :
    (batch_compute_pool 3 f events nj).2 = [PoolEvent.acquire nj, PoolEvent.release] ∧
    (∀ (v : ℕ) (e : ε), (batch_compute_pool v f events nj).1 = Except.error e →
      ∃ ev ∈ events, f ev = Except.error e) ∧
    (∀ (v : ℕ) (rs : List R), (batch_compute_pool v f events nj).1 = Except.ok rs →
      rs.length = events.length) ∧
    (∀ rs : List R, (batch_compute_pool 2 f events nj).1 = Except.ok rs →
      (batch_compute_pool 2 f events nj).2 = [PoolEvent.acquire nj, PoolEvent.release]) ∧
    (∀ e : ε, (batch_compute_pool 2 f events nj).1 = Except.error e →
      (batch_compute_pool 2 f events nj).2 = [PoolEvent.acquire nj]) := by
  refine ⟨rfl, ?_, ?_, ?_, ?_⟩
  · intro v e h
    rw [batch_compute_pool_fst] at h
    exact imapChunkedE_error_mem f _ events e h
  · intro v rs h
    rw [batch_compute_pool_fst] at h
    exact imapChunkedE_ok_length f _ (chunksizeInt_toNat_pos events.length nj) events rs h
  · intro rs h
    rw [batch_compute_pool_fst] at h
    simp [batch_compute_pool, poolNoCtx, h, Except.isOk, Except.toBool]
  · intro e h
    rw [batch_compute_pool_fst] at h
    simp [batch_compute_pool, poolNoCtx, h, Except.isOk, Except.toBool]

/-- Witness for C7's amended theorem at concrete inputs: a failing batch under
Python 3 still shows acquire-then-release and surfaces the worker's error; an
all-success batch under Python 2 releases the pool, a failing one does not. -/
theorem c7_amended_pool_lifecycle_witness :
    (batch_compute_pool 3 fEx [[(1 : ℚ)], [], [2]] 2).2 =
      [PoolEvent.acquire 2, PoolEvent.release] ∧
    (∃ ev ∈ ([[(1 : ℚ)], [], [2]] : List Event), fEx ev = Except.error "empty event") ∧
    (batch_compute_pool 2 fEx [[(1 : ℚ)], [3], [2]] 2).2 =
      [PoolEvent.acquire 2, PoolEvent.release] ∧
    (batch_compute_pool 2 fEx [[(1 : ℚ)], [], [2]] 2).2 = [PoolEvent.acquire 2] := by
  have h := c7_amended_pool_lifecycle fEx [[(1 : ℚ)], [], [2]] 2
  have h2 := c7_amended_pool_lifecycle fEx [[(1 : ℚ)], [3], [2]] 2
  exact ⟨h.1, h.2.1 2 "empty event" rfl, h2.2.2.2.1 [1, 3, 2] rfl,
    h.2.2.2.2 "empty event" rfl⟩

end EnergyFlow
